import Mathlib

set_option maxHeartbeats 1000000

/-!
Verification development for the safe-llm session/command core.

The embedding models the `SessionManager` class (session-manager module),
the command router and chat-turn logic of `runChatSession`, the ghost-text
suggestion hook installed on `rl._refreshLine`, and the top-level
application loop of `main`.

Modelling conventions:
* The session directory is an association list from filename to file data;
  a file either parses as a `Session` record (`FileData.valid`) or fails
  `JSON.parse` (`FileData.corrupt`).
* `createdAt` is stored as the epoch value of the ISO timestamp
  (`new Date(s).getTime()`), the quantity the source compares when sorting.
* Ambient clock reads (`new Date()`) become explicit parameters: the ISO
  string fed to the id slug, and the epoch value stored in `createdAt`.
* External collaborators (the generation call `agent.generate` and the
  markdown renderer `marked.parse`) are parameters returning `Except`,
  since either may throw and the source wraps both in `try`.
* JS string primitives (`startsWith`, `endsWith`, `substring`, `trim`,
  `trimRight`) and the regex replaces are modelled on
  `List Char`, with `Char.isWhitespace` standing for the JS `\s` class
  (the characters that actually occur here are ASCII).
-/

structure Message where
  role : String
  content : String
deriving DecidableEq

structure Session where
  id : String
  filename : String
  createdAt : Nat
  messages : List Message
deriving DecidableEq

inductive FileData where
  | valid (s : Session)
  | corrupt
deriving DecidableEq

/-- State of a `SessionManager` instance together with the on-disk session
directory: the private `currentSessionId` field plus the `.safellm` files. -/
structure SMState where
  files : List (String × FileData)
  currentSessionId : Option String
deriving DecidableEq

/-! ### JS string primitives -/

/-- Boolean list-prefix test; basis for JS `String#startsWith`/`endsWith`. -/
def listIsPrefix : List Char → List Char → Bool
  | [], _ => true
  | _ :: _, [] => false
  | a :: as, b :: bs => a == b && listIsPrefix as bs

/-- JS `s.startsWith(p)`. -/
def jsStartsWith (s p : String) : Bool := listIsPrefix p.data s.data

/-- JS `s.endsWith(p)`. -/
def jsEndsWith (s p : String) : Bool := listIsPrefix p.data.reverse s.data.reverse

/-- JS `s.substring(n)`. -/
def jsSubstringFrom (s : String) (n : Nat) : String := ⟨s.data.drop n⟩

/-- Whitespace trim on both ends, as in JS `String#trim`. -/
def trimChars (l : List Char) : List Char :=
  ((l.dropWhile Char.isWhitespace).reverse.dropWhile Char.isWhitespace).reverse

/-- JS `s.trim()`. -/
def jsTrim (s : String) : String := ⟨trimChars s.data⟩

/-- JS `s.trimRight()`. -/
def jsTrimEnd (s : String) : String := ⟨(s.data.reverse.dropWhile Char.isWhitespace).reverse⟩

/-! ### File-system primitives over the session directory -/

/-- Model of `fs.readFile`: look an entry up by filename. -/
def fsGet : List (String × FileData) → String → Option FileData
  | [], _ => none
  | (k, d) :: rest, n => if k = n then some d else fsGet rest n

/-- Model of `fs.writeFile`: overwrite the entry if present, else create it. -/
def fsSet : List (String × FileData) → String → FileData → List (String × FileData)
  | [], n, d => [(n, d)]
  | (k, e) :: rest, n, d => if k = n then (n, d) :: rest else (k, e) :: fsSet rest n d

/-- Remove the (first) entry with the given filename. -/
def fsErase : List (String × FileData) → String → List (String × FileData)
  | [], _ => []
  | (k, e) :: rest, n => if k = n then rest else (k, e) :: fsErase rest n

/-- Model of `fs.rename(old, new)`: fails (throws) when the source file is absent,
otherwise moves the data, overwriting any file already at the target. -/
def fsRename (files : List (String × FileData)) (o n : String) :
    Option (List (String × FileData)) :=
  match fsGet files o with
  | some d => some (fsSet (fsErase files o) n d)
  | none => none

/-! ### Name sanitisation -/

/-- Character class kept by `replace(/[^a-zA-Z0-9-_ ]/g, '')`. -/
def keepChar (c : Char) : Bool := c.isAlpha || c.isDigit || c == '-' || c == '_' || c == ' '

/-- Collapse each run of spaces to a single hyphen, as
`replace(/\s+/g, '-')` does on a string whose only whitespace is `' '`
(the preceding character filter removed every other whitespace character). -/
def collapseGo : Bool → List Char → List Char
  | _, [] => []
  | inRun, c :: rest =>
    if c = ' ' then (if inRun then collapseGo true rest else '-' :: collapseGo true rest)
    else c :: collapseGo false rest

/-- The `renameSession` slug: `newName.replace(/[^a-zA-Z0-9-_ ]/g, '').trim().replace(/\s+/g, '-')`. -/
def sanitize (s : String) : String :=
  ⟨collapseGo false (trimChars (s.data.filter keepChar))⟩

/-- The `createSession` timestamp slug: `iso.replace(/[:.]/g, '-')`. -/
def sanitizeTs (s : String) : String :=
  ⟨s.data.map (fun c => if c = ':' ∨ c = '.' then '-' else c)⟩

/-! ### SessionManager operations -/

/-- The filename normalisation of `loadSession`: append `.json` unless present. -/
def withJson (x : String) : String := if jsEndsWith x ".json" then x else x ++ ".json"

/-- Model of `SessionManager.createSession`, with the two `new Date()` reads passed in:
`ts` is the ISO string the id slug is derived from, `ct` the epoch value
recorded in `createdAt`. Returns the new id and the updated state. -/
def createSession (ts : String) (ct : Nat) (σ : SMState) : String × SMState :=
  let id := "session-" ++ sanitizeTs ts
  let filename := id ++ ".json"
  let session : Session := ⟨id, filename, ct, []⟩
  (id, ⟨fsSet σ.files filename (.valid session), some id⟩)

/-- Model of `SessionManager.logInteraction`: rewrite the active record's messages;
absent active session, unreadable file, or parse failure are absorbed. -/
def logInteraction (msgs : List Message) (σ : SMState) : SMState :=
  match σ.currentSessionId with
  | none => σ
  | some cid =>
    match fsGet σ.files (cid ++ ".json") with
    | some (.valid s) =>
      ⟨fsSet σ.files (cid ++ ".json") (.valid { s with messages := msgs }), some cid⟩
    | _ => σ

/-- The records `listSessions` accumulates before sorting: each `.json`
file that parses; corrupted files are skipped by the per-file `try`. -/
def sessionsOnDisk (files : List (String × FileData)) : List Session :=
  files.filterMap fun e =>
    if jsEndsWith e.1 ".json" then
      match e.2 with
      | .valid s => some s
      | .corrupt => none
    else none

/-- Comparator of `listSessions`' final sort: `createdAt` descending. -/
def createdDesc (a b : Session) : Prop := b.createdAt ≤ a.createdAt

instance : DecidableRel createdDesc := fun a b => inferInstanceAs (Decidable (_ ≤ _))

instance : IsTotal Session createdDesc :=
  ⟨fun a b => (Nat.le_total a.createdAt b.createdAt).symm.imp id id⟩

instance : IsTrans Session createdDesc :=
  ⟨fun _ _ _ h1 h2 => Nat.le_trans h2 h1⟩

/-- Model of `SessionManager.listSessions`: parse every `.json` file, skipping
corrupted ones, and sort by `createdAt` descending. -/
def listSessions (σ : SMState) : List Session :=
  (sessionsOnDisk σ.files).insertionSort createdDesc

/-- Model of `SessionManager.loadSession`: try the literal filename first; on read or
parse failure fall back to searching `listSessions` by id or filename. On
success the loaded record's id becomes the active session. -/
def loadSession (x : String) (σ : SMState) : Option Session × SMState :=
  let filename := withJson x
  match fsGet σ.files filename with
  | some (.valid s) => (some s, ⟨σ.files, some s.id⟩)
  | _ =>
    match (listSessions σ).find? (fun s => s.id == x || s.filename == x || s.filename == filename) with
    | some s => (some s, ⟨σ.files, some s.id⟩)
    | none => (none, σ)

/-- Model of `SessionManager.renameSession`. Mirrors the source step for step: load
the target (which as a side effect makes it the active session), write the
record with the new `filename` under the old path, move the file, rewrite it
with `id` set to the slug, then update `currentSessionId` — the comparison
against `session.id` happens after that field was assigned the new id. -/
def renameSession (x newName : String) (σ : SMState) : Bool × SMState :=
  match loadSession x σ with
  | (none, σ') => (false, σ')
  | (some session, σ') =>
    let oldPath := session.filename
    let sanitized := sanitize newName
    let newFilename := sanitized ++ ".json"
    let session1 := { session with filename := newFilename }
    let files1 := fsSet σ'.files oldPath (.valid session1)
    match fsRename files1 oldPath newFilename with
    | none => (false, ⟨files1, σ'.currentSessionId⟩)
    | some files2 =>
      let session2 := { session1 with id := sanitized }
      let files3 := fsSet files2 newFilename (.valid session2)
      let cur := match σ'.currentSessionId with
        | some c => if c == x || c == session2.id then some sanitized else some c
        | none => none
      (true, ⟨files3, cur⟩)

/-! ### Well-formedness of the store -/

/-- A parsed record is consistent with the file that holds it: its
`filename` field is the storage key, its `id` is the key's stem, and the id
contains no dot (true of every id the two id-producing operations emit). -/
def goodData (k : String) : FileData → Prop
  | .corrupt => True
  | .valid s => s.filename = k ∧ s.id ++ ".json" = k ∧ '.' ∉ s.id.data

instance (k : String) : (d : FileData) → Decidable (goodData k d)
  | .corrupt => isTrue trivial
  | .valid _ => inferInstanceAs (Decidable (_ ∧ _ ∧ _))

/-- Store invariant: filenames are distinct and every parsed record is
consistent with its storage key. -/
def wf (σ : SMState) : Prop :=
  (σ.files.map Prod.fst).Nodup ∧ ∀ e ∈ σ.files, goodData e.1 e.2

instance (σ : SMState) : Decidable (wf σ) := inferInstanceAs (Decidable (_ ∧ _))

/-! ### Thinking-block post-processing (runChatSession rendering logic) -/

/-- The characters of the `<think>` opening tag. -/
def openTag : List Char := "<think>".data

/-- The characters of the closing tag. -/
def closeTag : List Char := "</think>".data

/-- Split a character list at the first occurrence of `pat` (non-greedy
regex search): returns the part before the match and the part after it. -/
def splitFirst (pat : List Char) : List Char → Option (List Char × List Char)
  | [] => if pat.isEmpty then some ([], []) else none
  | c :: rest =>
    if listIsPrefix pat (c :: rest) then some ([], (c :: rest).drop pat.length)
    else
      match splitFirst pat rest with
      | some (pre, post) => some (c :: pre, post)
      | none => none

/-- Model of `replace(/<think>[\s\S]*?<\/think>/g, '')`: repeatedly cut the minimal
block from the first `<think>` to the next `</think>`. The fuel argument
only bounds iteration: each round removes at least the two tags, so the
input length is always enough fuel. -/
def stripThinkGo : Nat → List Char → List Char
  | 0, l => l
  | fuel + 1, l =>
    match splitFirst openTag l with
    | none => l
    | some (pre, afterOpen) =>
      match splitFirst closeTag afterOpen with
      | none => l
      | some (_, afterClose) => pre ++ stripThinkGo fuel afterClose

/-- The history-content strip applied before persisting the assistant turn. -/
def stripThink (s : String) : String := ⟨stripThinkGo s.data.length s.data⟩

/-- Model of `line.match(/^\s*/)[0].length`: size of the leading whitespace run. -/
def lineIndent (l : String) : Nat := (l.data.takeWhile Char.isWhitespace).length

/-- Minimum indentation over the non-blank lines; 0 when every line is blank. -/
def minIndentOf (lines : List String) : Nat :=
  match ((lines.filter fun l => jsTrim l != "").map lineIndent).min? with
  | some m => m
  | none => 0

/-- Model of `replace(/^\s*<think>([\s\S]*?)<\/think>/, ...)`: reformat a leading
thinking block as a quoted aside followed by a response header. -/
def formatThinking (s : String) : String :=
  let rest := s.data.dropWhile Char.isWhitespace
  if listIsPrefix openTag rest then
    match splitFirst closeTag (rest.drop openTag.length) with
    | some (body, afterClose) =>
      let lines := (⟨body⟩ : String).splitOn "\n"
      let minIndent := minIndentOf lines
      let processed := lines.map fun l => jsTrimEnd ⟨l.data.drop minIndent⟩
      let excerpt := "\n> ".intercalate processed
      "\n> **Thinking Process:**\n> " ++ excerpt ++ "\n\n---\n\n**Response:**\n\n" ++ ⟨afterClose⟩
    | none => s
  else s

/-! ### Chat turn driver -/

/-- Result object of `agent.generate`: the primary text plus the optional
`reasoningText` fallback field. -/
structure GenResult where
  text : String
  reasoningText : Option String
deriving DecidableEq

/-- Truthiness of the `reasoningText` fallback field, as `!responseText && result.reasoningText` tests it. -/
def truthy : Option String → Bool
  | none => false
  | some s => s != ""

/-- Model of `let responseText = result.text; if (!responseText && result.reasoningText)
responseText = result.reasoningText`. -/
def responseTextOf (r : GenResult) : String :=
  if r.text = "" ∧ truthy r.reasoningText then r.reasoningText.getD "" else r.text

/-- The assistant content that is persisted:
`responseText.replace(/<think>.../g, '').trim()`, falling back to the raw
text when the strip leaves nothing (`historyContent || responseText`). -/
def historyContentOf (t : String) : String :=
  let h := jsTrim (stripThink t)
  if h = "" then t else h

/-- One chat turn of `runChatSession`'s line handler (the non-command path):
push the user turn and persist, call the generation collaborator, render,
then push and persist the cleaned assistant turn. A throw from generation or
from `marked.parse` lands in the surrounding `catch`, after which only the
user turn is recorded. -/
def chatTurn (gen : List Message → Except Unit GenResult)
    (render : String → Except Unit String) (input : String)
    (msgs : List Message) (σ : SMState) : List Message × SMState :=
  let msgs1 := msgs ++ [⟨"user", input⟩]
  let σ1 := logInteraction msgs1 σ
  match gen msgs1 with
  | .error _ => (msgs1, σ1)
  | .ok r =>
    let responseText := responseTextOf r
    match render (formatThinking responseText) with
    | .error _ => (msgs1, σ1)
    | .ok _ =>
      let msgs2 := msgs1 ++ [⟨"assistant", historyContentOf responseText⟩]
      (msgs2, logInteraction msgs2 σ1)

/-! ### Command router -/

/-- What a processed line tells the surrounding loop. -/
inductive RouteAction where
  | quit
  | configure
  | prompt
deriving DecidableEq

/-- Result of processing one input line: loop signal, in-memory transcript,
session-manager state, and whether `agent.generate` was invoked. -/
structure RouteOut where
  action : RouteAction
  msgs : List Message
  state : SMState
  genCalled : Bool
deriving DecidableEq

/-- The `rl.on('line')` handler of `runChatSession`: trim, check the exit
words, then each slash command in source order, then the empty-line
re-prompt, and otherwise run a chat turn. -/
def routeLine (ts : String) (ct : Nat) (gen : List Message → Except Unit GenResult)
    (render : String → Except Unit String) (line : String)
    (msgs : List Message) (σ : SMState) : RouteOut :=
  let input := jsTrim line
  if input = "exit" ∨ input = "quit" ∨ input = "/exit" ∨ input = "/quit" then
    ⟨.quit, msgs, σ, false⟩
  else if input = "/config" then ⟨.configure, msgs, σ, false⟩
  else if input = "/help" then ⟨.prompt, msgs, σ, false⟩
  else if input = "/clear" then ⟨.prompt, [], (createSession ts ct σ).2, false⟩
  else if input = "/history" then ⟨.prompt, msgs, σ, false⟩
  else if jsStartsWith input "/load " then
    let sid := jsTrim (jsSubstringFrom input 6)
    match loadSession sid σ with
    | (some s, σ') => ⟨.prompt, s.messages, σ', false⟩
    | (none, σ') => ⟨.prompt, msgs, σ', false⟩
  else if jsStartsWith input "/rename " then
    let newName := jsTrim (jsSubstringFrom input 8)
    if newName = "" then ⟨.prompt, msgs, σ, false⟩
    else
      match σ.currentSessionId with
      | some cid => ⟨.prompt, msgs, (renameSession cid newName σ).2, false⟩
      | none => ⟨.prompt, msgs, σ, false⟩
  else if input = "" then ⟨.prompt, msgs, σ, false⟩
  else
    let r := chatTurn gen render input msgs σ
    ⟨.prompt, r.1, r.2, true⟩

/-! ### Application loop -/

/-- One line of interactive input together with the ambient values consumed
while processing it: the clock reads and the external collaborators. -/
structure LineInput where
  line : String
  ts : String
  ct : Nat
  gen : List Message → Except Unit GenResult
  render : String → Except Unit String

/-- Drive `routeLine` over successive inputs until a non-`prompt` action.
`none` means the supplied input was exhausted with the session still open. -/
def chatSessionGo : List LineInput → List Message → SMState → Option RouteAction × SMState
  | [], _, σ => (none, σ)
  | li :: rest, msgs, σ =>
    let out := routeLine li.ts li.ct li.gen li.render li.line msgs σ
    match out.action with
    | .prompt => chatSessionGo rest out.msgs out.state
    | a => (some a, out.state)

/-- Model of `runChatSession`: a fresh in-memory transcript (`const messages = []`)
processed against the shared session manager. -/
def runChatSession (inputs : List LineInput) (σ : SMState) : Option RouteAction × SMState :=
  chatSessionGo inputs [] σ

/-- The `while (true)` application loop of `main`, driven by one list of
line inputs per chat session. On `configure` the wizard replaces the config
object and the loop re-enters `runChatSession` directly — the session
manager is not touched between iterations. The banner printing, agent
construction and connectivity probe of the loop body do not interact with
the session manager and are omitted. -/
def mainLoop : List (List LineInput) → SMState → Option RouteAction × SMState
  | [], σ => (none, σ)
  | runInputs :: rest, σ =>
    match runChatSession runInputs σ with
    | (some .configure, σ') => mainLoop rest σ'
    | (res, σ') => (res, σ')

/-- The source's `main` entry point (named `mainRun` here since Lean
reserves `main` for executables): create one session at startup, then
enter the application loop. -/
def mainRun (ts0 : String) (ct0 : Nat) (runs : List (List LineInput))
    (σ0 : SMState) : Option RouteAction × SMState :=
  mainLoop runs (createSession ts0 ct0 σ0).2

/-! ### Ghost-text suggestion engine -/

/-- The shared command list used for autocomplete and ghost text. -/
def COMMANDS : List String :=
  ["/help", "/config", "/clear", "/history", "/load ", "/rename ", "/exit", "/quit"]

/-- Suggestion-engine state: the module-level `suggestion` and
`showRootSuggestion` variables, plus a model of the timer runtime.
`tracked` is `rootSuggestionTimer !== null`; `trackedLive` says the tracked
handle is still scheduled (a fired timer leaves a stale non-null handle);
`live` counts scheduled timeouts in the runtime, so that single-timer
claims are facts to prove rather than artefacts of the model. -/
structure GhostState where
  suggestion : String
  showRootSuggestion : Bool
  tracked : Bool
  trackedLive : Bool
  live : Nat
deriving DecidableEq

/-- The active-suggestion condition:
`line.length > 0 && line.startsWith('/') && this.cursor === line.length`. -/
def suggestActive (line : String) (cursor : Nat) : Prop :=
  line.length > 0 ∧ jsStartsWith line "/" = true ∧ cursor = line.length

instance (line : String) (cursor : Nat) : Decidable (suggestActive line cursor) :=
  inferInstanceAs (Decidable (_ ∧ _ ∧ _))

/-- The patched `rl._refreshLine`: reset the suggestion, clear any pending
reveal timer, then either arm the debounce (bare `/`, latch unset), reveal
the first command (bare `/`, latch set), complete a longer prefix
immediately, or — when the active condition fails — drop the latch. -/
def refreshLine (line : String) (cursor : Nat) (g : GhostState) : GhostState :=
  let g1 := { g with suggestion := "" }
  let g2 :=
    if g1.tracked then
      { g1 with tracked := false, trackedLive := false,
                live := g1.live - (if g1.trackedLive then 1 else 0) }
    else g1
  if suggestActive line cursor then
    if line.length = 1 then
      if g2.showRootSuggestion then
        { g2 with suggestion := jsSubstringFrom (COMMANDS.headD "") line.length }
      else
        { g2 with tracked := true, trackedLive := true, live := g2.live + 1 }
    else
      match COMMANDS.find? (fun c => jsStartsWith c line && c != line) with
      | some m => { g2 with suggestion := jsSubstringFrom m line.length }
      | none => g2
  else
    { g2 with showRootSuggestion := false }

/-- The `setTimeout` callback firing after the 500 ms debounce: the runtime
retires the timeout (the stale handle stays non-null), the latch is set,
and the line is refreshed. Firing is only possible while the tracked
timeout is still scheduled. -/
def fireTimer (line : String) (cursor : Nat) (g : GhostState) : GhostState :=
  if g.tracked ∧ g.trackedLive then
    refreshLine line cursor
      { g with trackedLive := false, live := g.live - 1, showRootSuggestion := true }
  else g

/-- Events the suggestion engine reacts to: a keystroke redraw with the
resulting line and cursor, or the debounce delay elapsing. -/
inductive GhostEvent where
  | key (line : String) (cursor : Nat)
  | fire (line : String) (cursor : Nat)

/-- Step the engine by one event. -/
def ghostStep (g : GhostState) : GhostEvent → GhostState
  | .key l c => refreshLine l c g
  | .fire l c => fireTimer l c g

/-- Engine state when `runChatSession` installs the hook. -/
def ghostInit : GhostState := ⟨"", false, false, false, 0⟩

/-- Run the engine from its initial state over an event sequence. -/
def runGhost (evs : List GhostEvent) : GhostState := evs.foldl ghostStep ghostInit

/-- The timer bookkeeping invariant: scheduled timeouts are exactly the
tracked-and-still-live handle. -/
def timerInv (g : GhostState) : Prop :=
  g.live = if g.tracked ∧ g.trackedLive then 1 else 0

instance (g : GhostState) : Decidable (timerInv g) :=
  inferInstanceAs (Decidable (_ = _))

/-! ### Helper lemmas: strings -/

theorem strData_append (a b : String) : (a ++ b).data = a.data ++ b.data := rfl

theorem strExt : ∀ {a b : String}, a.data = b.data → a = b
  | ⟨_⟩, ⟨_⟩, rfl => rfl

theorem strAppendCancel {a b c : String} (h : a ++ c = b ++ c) : a = b := by
  have hd : a.data ++ c.data = b.data ++ c.data := by
    have := congrArg String.data h
    simpa [strData_append] using this
  have hlen : a.data.length = b.data.length := by
    have h2 := congrArg List.length hd
    rw [List.length_append, List.length_append] at h2
    omega
  exact strExt (List.append_inj hd hlen).1

theorem listIsPrefix_append (p t : List Char) : listIsPrefix p (p ++ t) = true := by
  induction p with
  | nil => rfl
  | cons c cs ih => simp [listIsPrefix, ih]

theorem mem_of_listIsPrefix {p l : List Char} (h : listIsPrefix p l = true) :
    ∀ c ∈ p, c ∈ l := by
  induction p generalizing l with
  | nil => simp
  | cons a as ih =>
    cases l with
    | nil => simp [listIsPrefix] at h
    | cons b bs =>
      simp only [listIsPrefix, Bool.and_eq_true, beq_iff_eq] at h
      intro c hc
      rcases List.mem_cons.mp hc with rfl | hc
      · exact h.1 ▸ List.mem_cons_self _ _
      · exact List.mem_cons_of_mem _ (ih h.2 c hc)

/-- A string that ends in `".json"` contains a dot. -/
theorem dot_mem_of_endsWithJson {x : String} (h : jsEndsWith x ".json" = true) :
    '.' ∈ x.data := by
  have := mem_of_listIsPrefix h '.' (by decide)
  simpa using this

theorem withJson_of_noDot {x : String} (h : '.' ∉ x.data) :
    withJson x = x ++ ".json" := by
  unfold withJson
  rw [if_neg]
  intro hEnds
  rw [← Bool.not_eq_false] at hEnds
  exact h (dot_mem_of_endsWithJson (Bool.of_not_eq_false hEnds))

theorem dot_mem_append_json (x : String) : '.' ∈ (x ++ ".json").data := by
  rw [strData_append]
  exact List.mem_append.mpr (Or.inr (by decide))

theorem appendJson_inj {a b : String} (h : a ++ ".json" = b ++ ".json") : a = b :=
  strAppendCancel h

/-! ### Helper lemmas: the character content of sanitised names -/

theorem collapseGo_chars {c : Char} : ∀ (b : Bool) (l : List Char),
    c ∈ collapseGo b l → c = '-' ∨ c ∈ l := by
  intro b l
  induction l generalizing b with
  | nil => simp [collapseGo]
  | cons a as ih =>
    intro h
    simp only [collapseGo] at h
    by_cases ha : a = ' '
    · rw [if_pos ha] at h
      by_cases hb : b = true
      · subst hb
        rw [if_pos rfl] at h
        rcases ih true h with h' | h'
        · exact Or.inl h'
        · exact Or.inr (List.mem_cons_of_mem _ h')
      · rw [Bool.not_eq_true] at hb
        subst hb
        rw [if_neg (by simp)] at h
        rcases List.mem_cons.mp h with rfl | h'
        · exact Or.inl rfl
        · rcases ih true h' with h'' | h''
          · exact Or.inl h''
          · exact Or.inr (List.mem_cons_of_mem _ h'')
    · rw [if_neg ha] at h
      rcases List.mem_cons.mp h with rfl | h'
      · exact Or.inr (List.mem_cons_self _ _)
      · rcases ih false h' with h'' | h''
        · exact Or.inl h''
        · exact Or.inr (List.mem_cons_of_mem _ h'')

theorem mem_of_mem_dropWhile {c : Char} {p : Char → Bool} :
    ∀ {l : List Char}, c ∈ l.dropWhile p → c ∈ l := by
  intro l
  induction l with
  | nil => simp
  | cons a as ih =>
    intro h
    rw [List.dropWhile_cons] at h
    by_cases hp : p a = true
    · rw [if_pos hp] at h
      exact List.mem_cons_of_mem _ (ih h)
    · rw [if_neg hp] at h
      exact h

theorem mem_of_mem_trimChars {c : Char} {l : List Char} (h : c ∈ trimChars l) : c ∈ l := by
  unfold trimChars at h
  rw [List.mem_reverse] at h
  have h1 := mem_of_mem_dropWhile h
  rw [List.mem_reverse] at h1
  exact mem_of_mem_dropWhile h1

/-- Every character of a `sanitize` slug passes the kept-character class or
is the hyphen substituted for whitespace; in particular no dot survives. -/
theorem sanitize_noDot (s : String) : '.' ∉ (sanitize s).data := by
  intro h
  unfold sanitize at h
  rcases collapseGo_chars false _ h with h' | h'
  · exact absurd h' (by decide)
  · have := mem_of_mem_trimChars h'
    have hk : keepChar '.' = true := List.of_mem_filter this
    exact absurd hk (by decide)

theorem sanitizeTs_noDot (s : String) : '.' ∉ (sanitizeTs s).data := by
  intro h
  unfold sanitizeTs at h
  simp only [List.mem_map] at h
  obtain ⟨c, _, hc⟩ := h
  by_cases h1 : c = ':' ∨ c = '.'
  · rw [if_pos h1] at hc
    exact absurd hc.symm (by decide)
  · rw [if_neg h1] at hc
    exact h1 (Or.inr hc)

theorem createId_noDot (ts : String) : '.' ∉ ("session-" ++ sanitizeTs ts).data := by
  rw [strData_append]
  intro h
  rcases List.mem_append.mp h with h' | h'
  · exact absurd h' (by decide)
  · exact sanitizeTs_noDot ts h'

/-! ### Helper lemmas: file-system primitives -/

theorem fsGet_fsSet_self (l : List (String × FileData)) (k : String) (d : FileData) :
    fsGet (fsSet l k d) k = some d := by
  induction l with
  | nil => simp [fsSet, fsGet]
  | cons e rest ih =>
    obtain ⟨k', d'⟩ := e
    by_cases h : k' = k
    · simp [fsSet, fsGet, h]
    · simp [fsSet, fsGet, h, ih]

theorem fsGet_fsSet_ne (l : List (String × FileData)) {k n : String} (d : FileData)
    (h : k ≠ n) : fsGet (fsSet l k d) n = fsGet l n := by
  induction l with
  | nil => simp [fsSet, fsGet, h]
  | cons e rest ih =>
    obtain ⟨k', d'⟩ := e
    by_cases h' : k' = k
    · subst h'
      simp [fsSet, fsGet, h]
    · simp only [fsSet, if_neg h']
      by_cases h'' : k' = n
      · simp [fsGet, h'']
      · simp [fsGet, h'', ih]

theorem mem_of_fsGet {l : List (String × FileData)} {k : String} {d : FileData}
    (h : fsGet l k = some d) : (k, d) ∈ l := by
  induction l with
  | nil => simp [fsGet] at h
  | cons e rest ih =>
    obtain ⟨k', d'⟩ := e
    rw [fsGet] at h
    split at h
    · next heq =>
      injection h with h2
      subst heq
      subst h2
      exact List.mem_cons_self _ _
    · exact List.mem_cons_of_mem _ (ih h)

theorem fsGet_of_mem {l : List (String × FileData)} {k : String} {d : FileData}
    (hnd : (l.map Prod.fst).Nodup) (h : (k, d) ∈ l) : fsGet l k = some d := by
  induction l with
  | nil => simp at h
  | cons e rest ih =>
    obtain ⟨k', d'⟩ := e
    rw [List.map_cons, List.nodup_cons] at hnd
    rcases List.mem_cons.mp h with h' | h'
    · cases h'
      simp [fsGet]
    · have hk : k' ≠ k := fun hkk => hnd.1 (List.mem_map.mpr ⟨(k, d), h', hkk.symm⟩)
      rw [fsGet, if_neg hk]
      exact ih hnd.2 h'

theorem mem_fsSet {l : List (String × FileData)} {k : String} {d : FileData} {e} :
    e ∈ fsSet l k d → e = (k, d) ∨ e ∈ l := by
  induction l with
  | nil => simp [fsSet]
  | cons e' rest ih =>
    obtain ⟨k', d'⟩ := e'
    intro h
    by_cases h' : k' = k
    · rw [fsSet, if_pos h'] at h
      rcases List.mem_cons.mp h with rfl | h''
      · exact Or.inl rfl
      · exact Or.inr (List.mem_cons_of_mem _ h'')
    · rw [fsSet, if_neg h'] at h
      rcases List.mem_cons.mp h with rfl | h''
      · exact Or.inr (List.mem_cons_self _ _)
      · rcases ih h'' with h3 | h3
        · exact Or.inl h3
        · exact Or.inr (List.mem_cons_of_mem _ h3)

theorem fsErase_fsSet (l : List (String × FileData)) (k : String) (d : FileData) :
    fsErase (fsSet l k d) k = fsErase l k := by
  induction l with
  | nil => simp [fsSet, fsErase]
  | cons e rest ih =>
    obtain ⟨k', d'⟩ := e
    by_cases h : k' = k
    · simp [fsSet, fsErase, h]
    · simp [fsSet, fsErase, h, ih]

theorem fsSet_fsSet_self (l : List (String × FileData)) (k : String) (d d' : FileData) :
    fsSet (fsSet l k d) k d' = fsSet l k d' := by
  induction l with
  | nil => simp [fsSet]
  | cons e rest ih =>
    obtain ⟨k', e'⟩ := e
    by_cases h : k' = k
    · simp [fsSet, h]
    · simp [fsSet, h, ih]

theorem keys_fsSet (l : List (String × FileData)) (k : String) (d : FileData) :
    (fsSet l k d).map Prod.fst =
      if k ∈ l.map Prod.fst then l.map Prod.fst else l.map Prod.fst ++ [k] := by
  induction l with
  | nil => simp [fsSet]
  | cons e rest ih =>
    obtain ⟨k', d'⟩ := e
    by_cases h : k' = k
    · subst h
      simp [fsSet]
    · have hne : ¬(k = k') := fun hk => h hk.symm
      simp only [fsSet, if_neg h, List.map_cons, List.mem_cons, ih]
      by_cases hmem : k ∈ rest.map Prod.fst
      · simp [hmem, hne]
      · simp [hmem, hne]

theorem nodup_keys_fsSet {l : List (String × FileData)} (k : String) (d : FileData)
    (h : (l.map Prod.fst).Nodup) : ((fsSet l k d).map Prod.fst).Nodup := by
  rw [keys_fsSet]
  by_cases hmem : k ∈ l.map Prod.fst
  · rwa [if_pos hmem]
  · rw [if_neg hmem]
    simpa using List.Nodup.append h (List.nodup_singleton k) (by simpa using hmem)

theorem fsErase_sublist (l : List (String × FileData)) (k : String) :
    (fsErase l k).Sublist l := by
  induction l with
  | nil => simp [fsErase]
  | cons e rest ih =>
    obtain ⟨k', d'⟩ := e
    by_cases h : k' = k
    · rw [fsErase, if_pos h]
      exact List.sublist_cons_self _ _
    · rw [fsErase, if_neg h]
      exact ih.cons₂ _

theorem nodup_keys_fsErase {l : List (String × FileData)} (k : String)
    (h : (l.map Prod.fst).Nodup) : ((fsErase l k).map Prod.fst).Nodup :=
  ((fsErase_sublist l k).map Prod.fst).nodup h

theorem mem_fsErase_of_nodup {l : List (String × FileData)} {k : String} {e}
    (hnd : (l.map Prod.fst).Nodup) (h : e ∈ fsErase l k) : e ∈ l ∧ e.1 ≠ k := by
  induction l with
  | nil => simp [fsErase] at h
  | cons e' rest ih =>
    obtain ⟨k', d'⟩ := e'
    rw [List.map_cons, List.nodup_cons] at hnd
    by_cases h' : k' = k
    · subst h'
      rw [fsErase, if_pos rfl] at h
      refine ⟨List.mem_cons_of_mem _ h, ?_⟩
      intro hek
      exact hnd.1 (List.mem_map.mpr ⟨e, h, hek⟩)
    · rw [fsErase, if_neg h'] at h
      rcases List.mem_cons.mp h with rfl | h''
      · exact ⟨List.mem_cons_self _ _, h'⟩
      · obtain ⟨hm, hk⟩ := ih hnd.2 h''
        exact ⟨List.mem_cons_of_mem _ hm, hk⟩

theorem fsGet_fsErase_self {l : List (String × FileData)} {k : String}
    (hnd : (l.map Prod.fst).Nodup) : fsGet (fsErase l k) k = none := by
  cases h : fsGet (fsErase l k) k with
  | none => rfl
  | some d =>
    obtain ⟨_, hk⟩ := mem_fsErase_of_nodup hnd (mem_of_fsGet h)
    exact absurd rfl hk

/-! ### Helper lemmas: session operations -/

theorem mem_sessionsOnDisk {files : List (String × FileData)} {s : Session} :
    s ∈ sessionsOnDisk files ↔
      ∃ k, (k, FileData.valid s) ∈ files ∧ jsEndsWith k ".json" = true := by
  unfold sessionsOnDisk
  rw [List.mem_filterMap]
  constructor
  · rintro ⟨⟨k, d⟩, he, hf⟩
    by_cases hj : jsEndsWith k ".json" = true
    · rw [if_pos hj] at hf
      cases d with
      | valid s' =>
        injection hf with hf
        subst hf
        exact ⟨k, he, hj⟩
      | corrupt => simp at hf
    · rw [if_neg hj] at hf
      simp at hf
  · rintro ⟨k, hk, hj⟩
    exact ⟨(k, .valid s), hk, by simp [hj]⟩

theorem mem_listSessions {σ : SMState} {s : Session} :
    s ∈ listSessions σ ↔
      ∃ k, (k, FileData.valid s) ∈ σ.files ∧ jsEndsWith k ".json" = true := by
  unfold listSessions
  rw [List.mem_insertionSort]
  exact mem_sessionsOnDisk

theorem loadSession_direct {σ : SMState} {x : String} {s : Session}
    (h : fsGet σ.files (withJson x) = some (.valid s)) :
    loadSession x σ = (some s, ⟨σ.files, some s.id⟩) := by
  simp only [loadSession]
  rw [h]

theorem loadSession_not_found {σ : SMState} {x : String}
    (h1 : ∀ s : Session, fsGet σ.files (withJson x) ≠ some (.valid s))
    (h2 : ∀ s ∈ listSessions σ, ¬(s.id = x ∨ s.filename = x ∨ s.filename = withJson x)) :
    loadSession x σ = (none, σ) := by
  simp only [loadSession]
  have hfind : (listSessions σ).find?
      (fun s => s.id == x || s.filename == x || s.filename == withJson x) = none := by
    rw [List.find?_eq_none]
    intro s hs
    have := h2 s hs
    simp only [Bool.or_eq_true, beq_iff_eq]
    tauto
  cases hget : fsGet σ.files (withJson x) with
  | none => rw [hfind]
  | some d =>
    cases d with
    | valid s => exact absurd hget (h1 s)
    | corrupt => rw [hfind]

/-- Successful rename through the direct-filename load path, fully
characterised: the old file is gone, the record sits under the slug's
filename with the slug as id, and the active pointer is the new id exactly
when the old id equals the identifier passed in or the slug itself
(the source compares `currentSessionId` — which the embedded `loadSession`
just set to the old id — against the argument and the already-updated
`session.id`). -/
theorem renameSession_direct {σ : SMState} {x n : String} {s : Session}
    (hget : fsGet σ.files (withJson x) = some (.valid s)) :
    renameSession x n σ =
      (true,
       ⟨fsSet (fsErase σ.files s.filename) (sanitize n ++ ".json")
          (.valid ⟨sanitize n, sanitize n ++ ".json", s.createdAt, s.messages⟩),
        if s.id = x ∨ s.id = sanitize n then some (sanitize n) else some s.id⟩) := by
  simp only [renameSession]
  rw [loadSession_direct hget]
  simp only [fsRename, fsGet_fsSet_self, fsErase_fsSet, fsSet_fsSet_self]
  by_cases hc : s.id = x ∨ s.id = sanitize n
  · rw [if_pos hc]
    simp only [Bool.or_eq_true, beq_iff_eq]
    rw [if_pos hc]
  · rw [if_neg hc]
    simp only [Bool.or_eq_true, beq_iff_eq]
    rw [if_neg hc]

theorem loadSession_none_state {σ σ' : SMState} {x : String}
    (h : loadSession x σ = (none, σ')) : σ' = σ := by
  simp only [loadSession] at h
  split at h
  · simp at h
  · split at h
    · simp at h
    · injection h with h1 h2
      exact h2.symm

theorem loadSession_some {σ σ' : SMState} {x : String} {s : Session}
    (h : loadSession x σ = (some s, σ')) :
    σ' = ⟨σ.files, some s.id⟩ ∧ ∃ k, (k, FileData.valid s) ∈ σ.files := by
  simp only [loadSession] at h
  split at h
  · next s' heq =>
    injection h with h1 h2
    injection h1 with h1
    subst h1
    exact ⟨h2.symm, _, mem_of_fsGet heq⟩
  · split at h
    · next s' hfind =>
      injection h with h1 h2
      injection h1 with h1
      subst h1
      obtain ⟨k, hk, _⟩ := mem_listSessions.mp (List.mem_of_find?_eq_some hfind)
      exact ⟨h2.symm, k, hk⟩
    · simp at h

/-- Any successful rename, fully characterised in terms of the loaded
record (covers both the direct-filename and the search load paths). -/
theorem renameSession_some {σ σ' : SMState} {x n : String} {s : Session}
    (hload : loadSession x σ = (some s, σ')) :
    renameSession x n σ =
      (true,
       ⟨fsSet (fsErase σ.files s.filename) (sanitize n ++ ".json")
          (.valid ⟨sanitize n, sanitize n ++ ".json", s.createdAt, s.messages⟩),
        if s.id = x ∨ s.id = sanitize n then some (sanitize n) else some s.id⟩) := by
  have hst := (loadSession_some hload).1
  simp only [renameSession]
  rw [hload, hst]
  simp only [fsRename, fsGet_fsSet_self, fsErase_fsSet, fsSet_fsSet_self]
  by_cases hc : s.id = x ∨ s.id = sanitize n
  · rw [if_pos hc]
    simp only [Bool.or_eq_true, beq_iff_eq]
    rw [if_pos hc]
  · rw [if_neg hc]
    simp only [Bool.or_eq_true, beq_iff_eq]
    rw [if_neg hc]

/-! ### Preservation of the store invariant -/

theorem wf_createSession {σ : SMState} (h : wf σ) (ts : String) (ct : Nat) :
    wf (createSession ts ct σ).2 := by
  obtain ⟨hnd, hgood⟩ := h
  simp only [createSession, wf]
  refine ⟨nodup_keys_fsSet _ _ hnd, ?_⟩
  intro e he
  rcases mem_fsSet he with rfl | he'
  · exact ⟨rfl, rfl, createId_noDot ts⟩
  · exact hgood e he'

theorem wf_logInteraction {σ : SMState} (h : wf σ) (msgs : List Message) :
    wf (logInteraction msgs σ) := by
  unfold logInteraction
  split
  · exact h
  · split
    · next s heq =>
      obtain ⟨hnd, hgood⟩ := h
      refine ⟨nodup_keys_fsSet _ _ hnd, ?_⟩
      intro e he
      rcases mem_fsSet he with rfl | he'
      · have hg := hgood _ (mem_of_fsGet heq)
        exact ⟨hg.1, hg.2.1, hg.2.2⟩
      · exact hgood e he'
    · exact h

theorem wf_loadSession {σ : SMState} (h : wf σ) (x : String) :
    wf (loadSession x σ).2 := by
  cases hload : loadSession x σ with
  | mk opt σ' =>
    cases opt with
    | none => rw [loadSession_none_state hload]; exact h
    | some s =>
      rw [(loadSession_some hload).1]
      exact h

theorem wf_renameSession {σ : SMState} (h : wf σ) (x n : String) :
    wf (renameSession x n σ).2 := by
  cases hload : loadSession x σ with
  | mk opt σ' =>
    cases opt with
    | none =>
      have hst := loadSession_none_state hload
      subst hst
      unfold renameSession
      rw [hload]
      exact h
    | some s =>
      rw [renameSession_some hload]
      obtain ⟨hnd, hgood⟩ := h
      refine ⟨nodup_keys_fsSet _ _ (nodup_keys_fsErase _ hnd), ?_⟩
      intro e he
      rcases mem_fsSet he with rfl | he'
      · exact ⟨rfl, rfl, sanitize_noDot n⟩
      · exact hgood e ((fsErase_sublist _ _).subset he')

/-- Evaluation of `logInteraction` with an active session whose file parses. -/
theorem logInteraction_active {σ : SMState} {cid : String} {s : Session}
    (hcur : σ.currentSessionId = some cid)
    (hget : fsGet σ.files (cid ++ ".json") = some (.valid s)) (msgs : List Message) :
    logInteraction msgs σ
      = ⟨fsSet σ.files (cid ++ ".json") (.valid { s with messages := msgs }), some cid⟩ := by
  simp only [logInteraction, hcur, hget]

theorem ne_of_dot {a b : String} (ha : '.' ∈ a.data) (hb : '.' ∉ b.data) : a ≠ b :=
  fun h => hb (h ▸ ha)

/-! ### Claim C9 -/

/-- C9: `listSessions` returns exactly the well-formed session records found
in the storage directory — the parseable `.json` files — sorted by
`createdAt` descending; a record that fails to parse is skipped rather than
surfaced, and the operation is total (it cannot throw on a corrupted file). -/
theorem C9_listSessions_wellformed_sorted (σ : SMState) :
    (listSessions σ).Perm (sessionsOnDisk σ.files) ∧
    (listSessions σ).Sorted createdDesc ∧
    ∀ s : Session, s ∈ listSessions σ ↔
      ∃ k, (k, FileData.valid s) ∈ σ.files ∧ jsEndsWith k ".json" = true :=
  ⟨List.perm_insertionSort createdDesc _, List.sorted_insertionSort createdDesc _,
   fun _ => mem_listSessions⟩

/-! ### Claim C3 -/

/-- C3: every Session Store operation preserves the invariant that each
stored record's `id` equals its storage key's stem (and its `filename`
field equals the key); moreover `createSession` returns an id that is both
the new record's `id` field and the stem of the file it was written to. -/
theorem C3_id_equals_storage_key (σ : SMState) (hwf : wf σ) (ts : String) (ct : Nat)
    (msgs : List Message) (x n : String) :
    (wf (createSession ts ct σ).2 ∧
      fsGet (createSession ts ct σ).2.files ((createSession ts ct σ).1 ++ ".json")
        = some (.valid ⟨(createSession ts ct σ).1, (createSession ts ct σ).1 ++ ".json", ct, []⟩)) ∧
    wf (logInteraction msgs σ) ∧
    wf (loadSession x σ).2 ∧
    wf (renameSession x n σ).2 := by
  refine ⟨⟨wf_createSession hwf ts ct, ?_⟩, wf_logInteraction hwf msgs,
    wf_loadSession hwf x, wf_renameSession hwf x n⟩
  simp only [createSession]
  exact fsGet_fsSet_self _ _ _

/-- Concrete store used by several witnesses: one well-formed session. -/
def stateOne : SMState :=
  ⟨[("session-1.json", .valid ⟨"session-1", "session-1.json", 7, [⟨"user", "x"⟩]⟩)],
   some "session-1"⟩

theorem C3_witness :
    wf stateOne ∧
    ((wf (createSession "T1" 5 stateOne).2 ∧
      fsGet (createSession "T1" 5 stateOne).2.files ((createSession "T1" 5 stateOne).1 ++ ".json")
        = some (.valid ⟨(createSession "T1" 5 stateOne).1, (createSession "T1" 5 stateOne).1 ++ ".json", 5, []⟩)) ∧
     wf (logInteraction [] stateOne) ∧
     wf (loadSession "a" stateOne).2 ∧
     wf (renameSession "a" "b" stateOne).2) :=
  ⟨by decide, C3_id_equals_storage_key stateOne (by decide) "T1" 5 [] "a" "b"⟩

/-! ### Claim C4 -/

def sessA : Session := ⟨"session-A", "session-A.json", 0, []⟩

def sessB : Session := ⟨"session-B", "session-B.json", 1, []⟩

/-- Two well-formed sessions with A active. -/
def stateAB : SMState :=
  ⟨[("session-A.json", .valid sessA), ("session-B.json", .valid sessB)], some "session-A"⟩

/-- C4 counterexample. First conjunct block: with `session-A` active,
renaming the *non-active* `session-B` changes the active pointer to the new
slug `New-Name` (the claim says a non-active rename leaves the pointer
unchanged). Second block: renaming the *active* session identified by its
filename leaves the pointer at the stale old id `session-A` even though the
record's id is now `Fresh` (the claim says the pointer then equals the new
id, the old id being a match). -/
theorem C4_counterexample :
    (stateAB.currentSessionId = some "session-A" ∧
     (renameSession "session-B" "New Name" stateAB).1 = true ∧
     (renameSession "session-B" "New Name" stateAB).2.currentSessionId = some "New-Name") ∧
    ((renameSession "session-A.json" "Fresh" stateAB).1 = true ∧
     fsGet (renameSession "session-A.json" "Fresh" stateAB).2.files "Fresh.json"
       = some (.valid ⟨"Fresh", "Fresh.json", 0, []⟩) ∧
     (renameSession "session-A.json" "Fresh" stateAB).2.currentSessionId = some "session-A") := by
  decide

/-- C4 (amended): a successful rename of the session loaded directly by
`identifier` always overwrites the active pointer — `loadSession` inside
`renameSession` first re-points it at the target's old id, and it is then
promoted to the new slug exactly when the old id equals the identifier
passed to rename or equals the slug itself (the source compares against
`session.id` only after assigning it the new id). Renaming a non-active
session therefore moves the pointer too. -/
theorem C4_activePointer_after_rename {σ : SMState} {x n : String} {s : Session}
    (hget : fsGet σ.files (withJson x) = some (.valid s)) :
    (renameSession x n σ).1 = true ∧
    (renameSession x n σ).2.currentSessionId
      = (if s.id = x ∨ s.id = sanitize n then some (sanitize n) else some s.id) := by
  rw [renameSession_direct hget]
  exact ⟨rfl, rfl⟩

theorem C4_witness :
    fsGet stateAB.files (withJson "session-B") = some (.valid sessB) ∧
    ((renameSession "session-B" "New Name" stateAB).1 = true ∧
     (renameSession "session-B" "New Name" stateAB).2.currentSessionId
       = (if sessB.id = "session-B" ∨ sessB.id = sanitize "New Name"
          then some (sanitize "New Name") else some sessB.id)) :=
  ⟨by decide, C4_activePointer_after_rename (by decide)⟩

/-! ### Claim C2 -/

/-- A store holding one session whose id already equals the slug `My-Name`. -/
def stateSlug : SMState :=
  ⟨[("My-Name.json", .valid ⟨"My-Name", "My-Name.json", 3, []⟩)], some "My-Name"⟩

/-- C2 counterexample: the claim quantifies over *every* stored session,
but for a (reachable) session whose id is already `"My-Name"` — e.g. the
result of an earlier rename to `"My Name"` — `rename(oldId, "My Name!")`
succeeds and `load(oldId)` still succeeds afterwards, contradicting the
claim's "the old id is no longer resolvable". -/
theorem C2_counterexample :
    wf stateSlug ∧
    fsGet stateSlug.files ("My-Name" ++ ".json")
      = some (.valid ⟨"My-Name", "My-Name.json", 3, []⟩) ∧
    (renameSession "My-Name" "My Name!" stateSlug).1 = true ∧
    (loadSession "My-Name" (renameSession "My-Name" "My Name!" stateSlug).2).1
      = some ⟨"My-Name", "My-Name.json", 3, []⟩ := by
  decide

/-- C2 (amended): for every stored session with id `oldId` in a well-formed
store, provided `oldId` is not itself the slug `"My-Name"`,
`rename(oldId, "My Name!")` leaves a record whose `id` equals the sanitised
slug `"My-Name"`, `load("My-Name")` succeeds and returns that record, and
`load(oldId)` reports not-found without changing state. -/
theorem C2_rename_slug_load {σ : SMState} {oldId : String} {s : Session}
    (hwf : wf σ)
    (hget : fsGet σ.files (oldId ++ ".json") = some (FileData.valid s))
    (hid : s.id = oldId)
    (hne : oldId ≠ "My-Name") :
    (renameSession oldId "My Name!" σ).1 = true ∧
    fsGet (renameSession oldId "My Name!" σ).2.files "My-Name.json"
      = some (.valid ⟨"My-Name", "My-Name.json", s.createdAt, s.messages⟩) ∧
    (loadSession "My-Name" (renameSession oldId "My Name!" σ).2).1
      = some ⟨"My-Name", "My-Name.json", s.createdAt, s.messages⟩ ∧
    loadSession oldId (renameSession oldId "My Name!" σ).2
      = (none, (renameSession oldId "My Name!" σ).2) := by
  obtain ⟨hnd, hgood⟩ := hwf
  have hgd := hgood _ (mem_of_fsGet hget)
  have hfn : s.filename = oldId ++ ".json" := hgd.1
  have hnodot : '.' ∉ oldId.data := hid ▸ hgd.2.2
  have hwj : withJson oldId = oldId ++ ".json" := withJson_of_noDot hnodot
  have hget' : fsGet σ.files (withJson oldId) = some (.valid s) := by
    rw [hwj]; exact hget
  have hsan : sanitize "My Name!" = "My-Name" := by decide
  have hjoin : "My-Name" ++ ".json" = "My-Name.json" := rfl
  have hren := @renameSession_direct σ oldId "My Name!" s hget'
  rw [hsan, hjoin] at hren
  have hkeyne : ("My-Name.json" : String) ≠ oldId ++ ".json" := by
    intro h
    exact hne.symm (appendJson_inj (hjoin.symm.trans h))
  have hFget : fsGet (renameSession oldId "My Name!" σ).2.files "My-Name.json"
      = some (.valid ⟨"My-Name", "My-Name.json", s.createdAt, s.messages⟩) := by
    rw [hren]
    exact fsGet_fsSet_self _ _ _
  refine ⟨by rw [hren], hFget, ?_, ?_⟩
  · have hwj2 : withJson "My-Name" = "My-Name.json" := by decide
    have := @loadSession_direct (renameSession oldId "My Name!" σ).2 "My-Name" _
      (by rw [hwj2]; exact hFget)
    rw [this]
  · apply loadSession_not_found
    · intro s' hcon
      rw [hwj, hren] at hcon
      rw [fsGet_fsSet_ne _ _ hkeyne, ← hfn, fsGet_fsErase_self hnd] at hcon
      exact Option.noConfusion hcon
    · intro s' hs'
      obtain ⟨k, hk, _⟩ := mem_listSessions.mp hs'
      rw [hren] at hk
      rw [hwj]
      rcases mem_fsSet hk with heq | hmem
      · injection heq with hke hde
        injection hde with hde
        subst hde
        refine fun hor => ?_
        rcases hor with h1 | h1 | h1
        · exact hne (h1.symm)
        · have hdot : '.' ∈ ("My-Name.json" : String).data := by decide
          exact ne_of_dot hdot hnodot h1
        · exact hkeyne h1
      · obtain ⟨hmem', hkne⟩ := mem_fsErase_of_nodup hnd hmem
        have hgk : s'.filename = k ∧ s'.id ++ ".json" = k ∧ '.' ∉ s'.id.data := hgood _ hmem'
        refine fun hor => ?_
        rcases hor with h1 | h1 | h1
        · exact hkne (by rw [← hgk.2.1, h1, ← hfn])
        · have hdotk : '.' ∈ k.data := hgk.2.1 ▸ dot_mem_append_json s'.id
          exact ne_of_dot hdotk hnodot (hgk.1 ▸ h1)
        · exact hkne (hgk.1.symm.trans h1 |>.trans hfn.symm)

theorem C2_witness :
    (wf stateOne ∧
     fsGet stateOne.files ("session-1" ++ ".json")
       = some (.valid ⟨"session-1", "session-1.json", 7, [⟨"user", "x"⟩]⟩) ∧
     ("session-1" : String) ≠ "My-Name") ∧
    ((renameSession "session-1" "My Name!" stateOne).1 = true ∧
     fsGet (renameSession "session-1" "My Name!" stateOne).2.files "My-Name.json"
       = some (.valid ⟨"My-Name", "My-Name.json", 7, [⟨"user", "x"⟩]⟩) ∧
     (loadSession "My-Name" (renameSession "session-1" "My Name!" stateOne).2).1
       = some ⟨"My-Name", "My-Name.json", 7, [⟨"user", "x"⟩]⟩ ∧
     loadSession "session-1" (renameSession "session-1" "My Name!" stateOne).2
       = (none, (renameSession "session-1" "My Name!" stateOne).2)) :=
  ⟨⟨by decide, by decide, by decide⟩,
   @C2_rename_slug_load stateOne "session-1"
     ⟨"session-1", "session-1.json", 7, [⟨"user", "x"⟩]⟩
     (by decide) (by decide) rfl (by decide)⟩

/-! ### Claim C5 -/

/-- C5 counterexample: transcript `[]`, input `"hi"`, the generation call
returns text, but `marked.parse` throws. The surrounding `catch` is reached
before the assistant push, so the persisted record holds only the user
turn — there is no `messages[1]`, contradicting the claim's "even if the
markdown rendering step fails". -/
theorem C5_counterexample :
    (chatTurn (fun _ => .ok ⟨"hello", none⟩) (fun _ => .error ()) "hi" [] stateOne).1
      = [⟨"user", "hi"⟩] ∧
    fsGet (chatTurn (fun _ => .ok ⟨"hello", none⟩) (fun _ => .error ()) "hi" [] stateOne).2.files
        "session-1.json"
      = some (.valid ⟨"session-1", "session-1.json", 7, [⟨"user", "hi"⟩]⟩) := by
  decide

/-- C5 (amended): with transcript `[]` and input `"hi"`, when the active
session's file parses, the persisted state is `[{user, hi}]` plus — exactly
when the rendering step succeeds — the assistant reply with thinking blocks
stripped (falling back to the raw text when stripping leaves nothing). If
rendering throws, the assistant turn is *not* persisted: only the user turn
is recorded. -/
theorem C5_chat_turn_persists {σ : SMState} {cid : String} {s : Session}
    (hcur : σ.currentSessionId = some cid)
    (hget : fsGet σ.files (cid ++ ".json") = some (.valid s))
    (gen : List Message → Except Unit GenResult) (render : String → Except Unit String)
    (r : GenResult) (hgen : gen [⟨"user", "hi"⟩] = .ok r) :
    (chatTurn gen render "hi" [] σ).1
      = (if (render (formatThinking (responseTextOf r))).isOk
         then [⟨"user", "hi"⟩, ⟨"assistant", historyContentOf (responseTextOf r)⟩]
         else [⟨"user", "hi"⟩]) ∧
    fsGet (chatTurn gen render "hi" [] σ).2.files (cid ++ ".json")
      = some (.valid { s with messages := (chatTurn gen render "hi" [] σ).1 }) := by
  have hlog1 := logInteraction_active hcur hget [⟨"user", "hi"⟩]
  cases hrender : render (formatThinking (responseTextOf r)) with
  | error e =>
    simp only [chatTurn, List.nil_append, hgen, hrender, hlog1, Except.isOk, if_neg]
    exact ⟨rfl, fsGet_fsSet_self _ _ _⟩
  | ok out =>
    have hget2 : fsGet (fsSet σ.files (cid ++ ".json")
          (.valid { s with messages := [⟨"user", "hi"⟩] })) (cid ++ ".json")
        = some (.valid { s with messages := [⟨"user", "hi"⟩] }) := fsGet_fsSet_self _ _ _
    have hlog2 := @logInteraction_active
      ⟨fsSet σ.files (cid ++ ".json") (.valid { s with messages := [⟨"user", "hi"⟩] }), some cid⟩
      cid { s with messages := [⟨"user", "hi"⟩] } rfl hget2
      [⟨"user", "hi"⟩, ⟨"assistant", historyContentOf (responseTextOf r)⟩]
    simp only [chatTurn, List.nil_append, hgen, hrender, List.cons_append, hlog1, hlog2,
      Except.isOk]
    rw [fsSet_fsSet_self]
    exact ⟨rfl, fsGet_fsSet_self _ _ _⟩

theorem C5_witness :
    (stateOne.currentSessionId = some "session-1" ∧
     fsGet stateOne.files ("session-1" ++ ".json")
       = some (.valid ⟨"session-1", "session-1.json", 7, [⟨"user", "x"⟩]⟩) ∧
     (fun _ : List Message => (.ok ⟨"ok", none⟩ : Except Unit GenResult)) [⟨"user", "hi"⟩]
       = .ok ⟨"ok", none⟩) ∧
    ((chatTurn (fun _ => .ok ⟨"ok", none⟩) (fun t => .ok t) "hi" [] stateOne).1
      = (if ((fun t : String => (.ok t : Except Unit String))
              (formatThinking (responseTextOf ⟨"ok", none⟩))).isOk
         then [⟨"user", "hi"⟩, ⟨"assistant", historyContentOf (responseTextOf ⟨"ok", none⟩)⟩]
         else [⟨"user", "hi"⟩]) ∧
     fsGet (chatTurn (fun _ => .ok ⟨"ok", none⟩) (fun t => .ok t) "hi" [] stateOne).2.files
        ("session-1" ++ ".json")
      = some (.valid { (⟨"session-1", "session-1.json", 7, [⟨"user", "x"⟩]⟩ : Session) with
          messages := (chatTurn (fun _ => .ok ⟨"ok", none⟩) (fun t => .ok t) "hi" [] stateOne).1 })) :=
  ⟨⟨rfl, by decide, rfl⟩,
   C5_chat_turn_persists rfl (by decide) (fun _ => .ok ⟨"ok", none⟩) (fun t => .ok t)
     ⟨"ok", none⟩ rfl⟩

/-! ### Router dispatch helpers -/

theorem jsStartsWith_append (p x : String) : jsStartsWith (p ++ x) p = true := by
  unfold jsStartsWith
  rw [strData_append]
  exact listIsPrefix_append _ _

theorem append_ne_of_not_starts {p t : String} (x : String)
    (h : jsStartsWith t p = false) : p ++ x ≠ t := by
  intro he
  rw [← he] at h
  rw [jsStartsWith_append] at h
  exact Bool.noConfusion h

theorem jsSubstringFrom_append (p x : String) {n : Nat} (h : p.data.length = n) :
    jsSubstringFrom (p ++ x) n = x := by
  unfold jsSubstringFrom
  rw [strData_append, ← h, List.drop_left]

/-- A line that survives trimming and matches none of the command checks is
routed to the chat turn. -/
theorem routeLine_chat {line : String} (htr : jsTrim line = line)
    (h1 : ¬(line = "exit" ∨ line = "quit" ∨ line = "/exit" ∨ line = "/quit"))
    (h2 : line ≠ "/config") (h3 : line ≠ "/help") (h4 : line ≠ "/clear")
    (h5 : line ≠ "/history") (h6 : jsStartsWith line "/load " = false)
    (h7 : jsStartsWith line "/rename " = false) (h8 : line ≠ "")
    (ts : String) (ct : Nat) (gen : List Message → Except Unit GenResult)
    (render : String → Except Unit String) (msgs : List Message) (σ : SMState) :
    routeLine ts ct gen render line msgs σ =
      ⟨.prompt, (chatTurn gen render line msgs σ).1,
       (chatTurn gen render line msgs σ).2, true⟩ := by
  simp only [routeLine, htr]
  rw [if_neg h1, if_neg h2, if_neg h3, if_neg h4, if_neg h5,
    if_neg (by rw [h6]; exact Bool.false_ne_true),
    if_neg (by rw [h7]; exact Bool.false_ne_true), if_neg h8]

theorem chatTurn_msgs (gen : List Message → Except Unit GenResult)
    (render : String → Except Unit String) (input : String) (msgs : List Message)
    (σ : SMState) :
    ∃ rest, (chatTurn gen render input msgs σ).1 = msgs ++ [⟨"user", input⟩] ++ rest := by
  simp only [chatTurn]
  cases hg : gen (msgs ++ [⟨"user", input⟩]) with
  | error e => exact ⟨[], by simp [hg]⟩
  | ok r =>
    cases hr : render (formatThinking (responseTextOf r)) with
    | error e => exact ⟨[], by simp [hg, hr]⟩
    | ok out =>
      exact ⟨[⟨"assistant", historyContentOf (responseTextOf r)⟩], by simp [hg, hr]⟩

/-! ### Claim C10 -/

/-- C10: the bare `"/load"` and `"/rename"` (no trailing space, no
argument) match none of the command checks — the argument forms test
`startsWith('/load ')` / `startsWith('/rename ')` with the space — so each
falls through to the chat path: it is appended to the transcript as a user
turn and the generation collaborator is invoked. -/
theorem C10_bare_command_is_chat (ts : String) (ct : Nat)
    (gen : List Message → Except Unit GenResult) (render : String → Except Unit String)
    (msgs : List Message) (σ : SMState) :
    ((routeLine ts ct gen render "/load" msgs σ).action = .prompt ∧
     (routeLine ts ct gen render "/load" msgs σ).genCalled = true ∧
     ∃ rest, (routeLine ts ct gen render "/load" msgs σ).msgs
       = msgs ++ [⟨"user", "/load"⟩] ++ rest) ∧
    ((routeLine ts ct gen render "/rename" msgs σ).action = .prompt ∧
     (routeLine ts ct gen render "/rename" msgs σ).genCalled = true ∧
     ∃ rest, (routeLine ts ct gen render "/rename" msgs σ).msgs
       = msgs ++ [⟨"user", "/rename"⟩] ++ rest) := by
  have hload := @routeLine_chat "/load" (by decide) (by decide) (by decide)
    (by decide) (by decide) (by decide) (by decide) (by decide) (by decide)
    ts ct gen render msgs σ
  have hren := @routeLine_chat "/rename" (by decide) (by decide) (by decide)
    (by decide) (by decide) (by decide) (by decide) (by decide) (by decide)
    ts ct gen render msgs σ
  rw [hload, hren]
  exact ⟨⟨rfl, rfl, chatTurn_msgs gen render "/load" msgs σ⟩,
    ⟨rfl, rfl, chatTurn_msgs gen render "/rename" msgs σ⟩⟩

/-! ### Claim C8 -/

/-- C8: when the (trimmed) identifier matches no stored session — the
direct filename read yields nothing parseable and no listed record matches
it by id or by filename — `loadSession` reports not-found and returns the
state unchanged, and dispatching the `/load <id>` line leaves the in-memory
transcript, the session files and the active-session id all unchanged
(and does not invoke generation). -/
theorem C8_load_notfound_frame {σ : SMState} {x : String}
    (hkey : fsGet σ.files (withJson x) = none ∨ fsGet σ.files (withJson x) = some .corrupt)
    (hrec : ∀ s ∈ listSessions σ, ¬(s.id = x ∨ s.filename = x ∨ s.filename = withJson x))
    (hxtr : jsTrim x = x)
    (htr : jsTrim ("/load " ++ x) = "/load " ++ x)
    (ts : String) (ct : Nat) (gen : List Message → Except Unit GenResult)
    (render : String → Except Unit String) (msgs : List Message) :
    loadSession x σ = (none, σ) ∧
    routeLine ts ct gen render ("/load " ++ x) msgs σ = ⟨.prompt, msgs, σ, false⟩ := by
  have hkey' : ∀ s : Session, fsGet σ.files (withJson x) ≠ some (.valid s) := by
    intro s h
    rcases hkey with h' | h' <;> rw [h'] at h <;> cases h
  have hload := loadSession_not_found hkey' hrec
  refine ⟨hload, ?_⟩
  have h1 : ¬("/load " ++ x = "exit" ∨ "/load " ++ x = "quit" ∨
      "/load " ++ x = "/exit" ∨ "/load " ++ x = "/quit") := by
    push_neg
    exact ⟨append_ne_of_not_starts x (by decide), append_ne_of_not_starts x (by decide),
      append_ne_of_not_starts x (by decide), append_ne_of_not_starts x (by decide)⟩
  simp only [routeLine, htr]
  rw [if_neg h1,
    if_neg (append_ne_of_not_starts x (by decide) : "/load " ++ x ≠ "/config"),
    if_neg (append_ne_of_not_starts x (by decide) : "/load " ++ x ≠ "/help"),
    if_neg (append_ne_of_not_starts x (by decide) : "/load " ++ x ≠ "/clear"),
    if_neg (append_ne_of_not_starts x (by decide) : "/load " ++ x ≠ "/history"),
    if_pos (jsStartsWith_append "/load " x),
    @jsSubstringFrom_append "/load " x 6 rfl, hxtr, hload]

theorem C8_witness :
    ((fsGet stateOne.files (withJson "nope") = none ∨
      fsGet stateOne.files (withJson "nope") = some .corrupt) ∧
     (∀ s ∈ listSessions stateOne,
       ¬(s.id = "nope" ∨ s.filename = "nope" ∨ s.filename = withJson "nope")) ∧
     jsTrim "nope" = "nope" ∧ jsTrim ("/load " ++ "nope") = "/load " ++ "nope") ∧
    (loadSession "nope" stateOne = (none, stateOne) ∧
     routeLine "T" 0 (fun _ => .ok ⟨"ok", none⟩) (fun t => .ok t) ("/load " ++ "nope") [] stateOne
       = ⟨.prompt, [], stateOne, false⟩) :=
  ⟨⟨by decide, by decide, by decide, by decide⟩,
   @C8_load_notfound_frame stateOne "nope" (by decide) (by decide) (by decide) (by decide)
     "T" 0 (fun _ => .ok ⟨"ok", none⟩) (fun t => .ok t) []⟩

/-! ### Suggestion-engine helpers -/

theorem timerInv_refreshLine {g : GhostState} (h : timerInv g) (l : String) (c : Nat) :
    timerInv (refreshLine l c g) := by
  rcases g with ⟨sug, sr, tr, tl, lv⟩
  simp only [timerInv] at h
  simp only [refreshLine, timerInv]
  cases tr <;> cases tl <;> cases sr <;> simp_all
  all_goals (repeat' split)
  all_goals simp_all

theorem timerInv_fireTimer {g : GhostState} (h : timerInv g) (l : String) (c : Nat) :
    timerInv (fireTimer l c g) := by
  unfold fireTimer
  by_cases hc : g.tracked ∧ g.trackedLive
  · rw [if_pos hc]
    apply timerInv_refreshLine
    simp only [timerInv] at h ⊢
    rw [if_pos hc] at h
    simp [hc.1, h]
  · rw [if_neg hc]
    exact h

/-- Only the timer callback ever sets the reveal latch: a refresh can
clear or keep it but never raise it. -/
theorem refreshLine_showRoot_mono {g : GhostState} {l : String} {c : Nat}
    (h : (refreshLine l c g).showRootSuggestion = true) : g.showRootSuggestion = true := by
  rcases g with ⟨sug, sr, tr, tl, lv⟩
  simp only [refreshLine] at h
  cases sr
  · exfalso
    revert h
    cases tr <;> simp <;> split <;> (try split) <;> (try split) <;> simp
  · rfl

theorem timerInv_runGhostAux (evs : List GhostEvent) (g : GhostState) (h : timerInv g) :
    timerInv (evs.foldl ghostStep g) := by
  induction evs generalizing g with
  | nil => exact h
  | cons e rest ih =>
    cases e with
    | key l c => exact ih _ (timerInv_refreshLine h l c)
    | fire l c => exact ih _ (timerInv_fireTimer h l c)

theorem live_le_one_of_timerInv {g : GhostState} (h : timerInv g) : g.live ≤ 1 := by
  unfold timerInv at h
  rw [h]
  split <;> omega

/-! ### Claim C6 -/

/-- C6 counterexample: with the reveal latch armed, a refresh whose line is
`"/h"` — not the bare prefix, so by the claim the latch must be cleared —
leaves `showRootSuggestion` set (the source clears it only when the
active-suggestion condition fails, and `"/h"` with the cursor at the end
satisfies that condition). -/
theorem C6_counterexample :
    ("/h" : String) ≠ "/" ∧
    (refreshLine "/h" 2 ⟨"", true, false, false, 0⟩).showRootSuggestion = true := by
  decide

/-- C6 (amended): the armed reveal latch is cleared exactly when the
active-suggestion condition fails — line empty, not starting with the
command prefix, or cursor not at the end. When the condition holds,
including deeper-typed lines such as `"/h"`, the latch keeps its value. -/
theorem C6_latch_reset (g : GhostState) (line : String) (cursor : Nat) :
    (¬suggestActive line cursor → (refreshLine line cursor g).showRootSuggestion = false) ∧
    (suggestActive line cursor →
      (refreshLine line cursor g).showRootSuggestion = g.showRootSuggestion) := by
  constructor
  · intro h
    simp only [refreshLine, if_neg h]
  · intro h
    rcases g with ⟨sug, sr, tr, tl, lv⟩
    simp only [refreshLine, if_pos h]
    cases tr <;> simp <;> split <;> (try split) <;> (try split) <;> simp

theorem C6_witness :
    (¬suggestActive "x" 0 ∧ suggestActive "/h" 2) ∧
    (refreshLine "x" 0 ghostInit).showRootSuggestion = false ∧
    (refreshLine "/h" 2 ⟨"", true, false, false, 0⟩).showRootSuggestion
      = (⟨"", true, false, false, 0⟩ : GhostState).showRootSuggestion :=
  ⟨⟨by decide, by decide⟩, (C6_latch_reset ghostInit "x" 0).1 (by decide),
   (C6_latch_reset ⟨"", true, false, false, 0⟩ "/h" 2).2 (by decide)⟩

/-! ### Claim C7 -/

/-- C7: with the line exactly the prefix `"/"` and the cursor at its end,
an un-revealed refresh produces no suggestion text and arms the debounce
timer (one live timeout); every refresh — i.e. every keystroke — first
cancels any pending timeout, preserving the single-timer bookkeeping
invariant, as does the timer callback itself; a refresh never sets the
reveal latch (only the delay elapsing does); and along any event sequence
from the initial state at most one timeout is ever outstanding. -/
theorem C7_debounce_single_timer (g : GhostState) (l : String) (c : Nat)
    (evs : List GhostEvent) :
    (g.showRootSuggestion = false →
      (refreshLine "/" 1 g).suggestion = "" ∧ (refreshLine "/" 1 g).tracked = true ∧
      (refreshLine "/" 1 g).trackedLive = true ∧
      (timerInv g → (refreshLine "/" 1 g).live = 1)) ∧
    (timerInv g → timerInv (refreshLine l c g) ∧ (refreshLine l c g).live ≤ 1) ∧
    (timerInv g → timerInv (fireTimer l c g)) ∧
    ((refreshLine l c g).showRootSuggestion = true → g.showRootSuggestion = true) ∧
    (runGhost evs).live ≤ 1 := by
  refine ⟨?_,
    fun h => ⟨timerInv_refreshLine h l c, live_le_one_of_timerInv (timerInv_refreshLine h l c)⟩,
    fun h => timerInv_fireTimer h l c, refreshLine_showRoot_mono,
    live_le_one_of_timerInv (timerInv_runGhostAux evs ghostInit rfl)⟩
  intro hsr
  rcases g with ⟨sug, sr, tr, tl, lv⟩
  simp only at hsr
  subst hsr
  have hact : suggestActive "/" 1 := by decide
  have hl : ("/" : String).length = 1 := rfl
  simp only [refreshLine, if_pos hact, hl]
  refine ⟨?_, ?_, ?_, ?_⟩
  · cases tr <;> simp
  · cases tr <;> simp
  · cases tr <;> simp
  · intro hinv
    simp only [timerInv] at hinv
    cases tr <;> cases tl <;> simp_all

theorem C7_witness :
    (ghostInit.showRootSuggestion = false ∧ timerInv ghostInit) ∧
    (refreshLine "/" 1 ghostInit).suggestion = "" ∧
    (refreshLine "/" 1 ghostInit).live = 1 ∧
    timerInv (refreshLine "/a" 2 ghostInit) ∧
    timerInv (fireTimer "/" 1 ghostInit) ∧
    (runGhost [.key "/" 1, .fire "/" 1]).live ≤ 1 :=
  ⟨⟨rfl, rfl⟩,
   ((C7_debounce_single_timer ghostInit "/a" 2 []).1 rfl).1,
   ((C7_debounce_single_timer ghostInit "/a" 2 []).1 rfl).2.2.2 rfl,
   ((C7_debounce_single_timer ghostInit "/a" 2 []).2.1 rfl).1,
   (C7_debounce_single_timer ghostInit "/" 1 []).2.2.1 rfl,
   (C7_debounce_single_timer ghostInit "/" 1 [.key "/" 1, .fire "/" 1]).2.2.2.2⟩

/-! ### Claim C1 -/

/-- A `/config` line together with its ambient collaborators. -/
def cfgInput : LineInput := ⟨"/config", "T", 0, fun _ => .ok ⟨"ok", none⟩, fun t => .ok t⟩

/-- A plain chat line `"hi"`. -/
def hiInput : LineInput := ⟨"hi", "T", 0, fun _ => .ok ⟨"ok", none⟩, fun t => .ok t⟩

/-- C1 counterexample: `main` creates a session once, *before* the loop.
Starting from an empty store, the startup session is `session-T1`; the
first chat session issues `/config`, which signals reconfigure *without
touching the session-manager state* — so the loop re-enters the router with
`session-T1` still active and no brand-new record created. The `"hi"` turn
of the post-reconfigure chat session is then appended to `session-T1.json`,
the previous session's record, and the store still holds exactly that one
file. -/
theorem C1_counterexample :
    runChatSession [cfgInput] (createSession "T1" 5 ⟨[], none⟩).2
      = (some .configure, (createSession "T1" 5 ⟨[], none⟩).2) ∧
    (createSession "T1" 5 ⟨[], none⟩).2.currentSessionId = some "session-T1" ∧
    mainLoop [[cfgInput], [hiInput]] (createSession "T1" 5 ⟨[], none⟩).2
      = mainLoop [[hiInput]] (createSession "T1" 5 ⟨[], none⟩).2 ∧
    (mainRun "T1" 5 [[cfgInput], [hiInput]] ⟨[], none⟩).2.files
      = [("session-T1.json",
          .valid ⟨"session-T1", "session-T1.json", 5, [⟨"user", "hi"⟩, ⟨"assistant", "ok"⟩]⟩)] := by
  decide

/-- C1 (amended): a brand-new session is created exactly once, at startup
before the first loop iteration (its id becomes active); when a chat
session signals reconfigure, the loop re-enters the Command Router with the
session-manager state exactly as the previous run left it — no new record,
the previous session still active — so the next chat session's turns are
logged into the previous session's record. -/
theorem C1_reconfigure_keeps_session (ts0 : String) (ct0 : Nat) (σ0 : SMState)
    (runs : List (List LineInput)) (runInputs : List LineInput)
    (rest : List (List LineInput)) {σ σ' : SMState}
    (hcfg : runChatSession runInputs σ = (some .configure, σ')) :
    (createSession ts0 ct0 σ0).2.currentSessionId = some ("session-" ++ sanitizeTs ts0) ∧
    mainRun ts0 ct0 runs σ0 = mainLoop runs (createSession ts0 ct0 σ0).2 ∧
    mainLoop (runInputs :: rest) σ = mainLoop rest σ' := by
  refine ⟨rfl, rfl, ?_⟩
  simp only [mainLoop]
  rw [hcfg]

theorem C1_witness :
    runChatSession [cfgInput] (createSession "T1" 5 ⟨[], none⟩).2
      = (some .configure, (createSession "T1" 5 ⟨[], none⟩).2) ∧
    ((createSession "T1" 5 ⟨[], none⟩).2.currentSessionId
       = some ("session-" ++ sanitizeTs "T1") ∧
     mainRun "T1" 5 [[cfgInput], [hiInput]] ⟨[], none⟩
       = mainLoop [[cfgInput], [hiInput]] (createSession "T1" 5 ⟨[], none⟩).2 ∧
     mainLoop [[cfgInput], [hiInput]] (createSession "T1" 5 ⟨[], none⟩).2
       = mainLoop [[hiInput]] (createSession "T1" 5 ⟨[], none⟩).2) :=
  ⟨by decide,
   C1_reconfigure_keeps_session "T1" 5 ⟨[], none⟩ [[cfgInput], [hiInput]] [cfgInput]
     [[hiInput]] (by decide)⟩
